import Mathlib

set_option maxHeartbeats 1000000
set_option maxRecDepth 8000

/-! Shallow embedding of the Canadian Stamp Identifier application
(src/js/app.js, together with the platform-optimized revision of the same
class in src/unnamed/part_002). JS strings are Lean strings over their
character lists; JS numbers that the program only ever holds at integer
values are Int/Nat; geometry coming from getBoundingClientRect is embedded
over the rationals. -/

/-- JS whitespace test used by String.prototype.trim and the split regex:
space, tab, LF, VT, FF, CR (the ASCII part of the WhiteSpace production). -/
def isWsChar (c : Char) : Bool :=
  c.toNat = 32 || c.toNat = 9 || c.toNat = 10 || c.toNat = 11 || c.toNat = 12 || c.toNat = 13

/-- Decimal digit test (characters 0-9). -/
def isDigitChar (c : Char) : Bool := 48 ≤ c.toNat && c.toNat ≤ 57

/-- ASCII case folding: the fragment of String.prototype.toLowerCase that the
catalog data exercises (A-Z mapped to a-z, every other character unchanged). -/
def asciiLower (c : Char) : Char :=
  if 65 ≤ c.toNat ∧ c.toNat ≤ 90 then Char.ofNat (c.toNat + 32) else c

/-- String.prototype.toLowerCase restricted to ASCII letters. -/
def lowerStr (s : String) : String := String.mk (s.toList.map asciiLower)

/-- Drop leading and trailing whitespace from a character list. -/
def trimL (cs : List Char) : List Char :=
  ((cs.dropWhile isWsChar).reverse.dropWhile isWsChar).reverse

/-- String.prototype.trim. -/
def trimStr (s : String) : String := String.mk (trimL s.toList)

/-- The pattern (second argument) is an initial segment of the text. -/
def listBegins : List Char → List Char → Bool
  | _, [] => true
  | [], _ :: _ => false
  | a :: as, b :: bs => a == b && listBegins as bs

/-- String.prototype.includes on character lists: the pattern occurs
contiguously somewhere inside the text. -/
def containsSubL (text pat : List Char) : Bool :=
  match text with
  | [] => pat.isEmpty
  | _ :: rest => listBegins text pat || containsSubL rest pat

/-- String.prototype.includes. -/
def containsSub (text pat : String) : Bool := containsSubL text.toList pat.toList

/-- String.prototype.startsWith. -/
def strBegins (s pat : String) : Bool := listBegins s.toList pat.toList

/-- Accumulator pass behind splitWsL: acc holds the reversed current run of
non-whitespace characters. -/
def splitWsGo : List Char → List Char → List (List Char)
  | [], acc => if acc.isEmpty then [] else [acc.reverse]
  | c :: rest, acc =>
    if isWsChar c then
      if acc.isEmpty then splitWsGo rest [] else acc.reverse :: splitWsGo rest []
    else splitWsGo rest (c :: acc)

/-- searchTerm.split(regex on whitespace runs).filter(w length positive):
the maximal runs of non-whitespace characters, in order. -/
def splitWsL (cs : List Char) : List (List Char) := splitWsGo cs []

/-- Word splitting at the String level. -/
def splitWs (s : String) : List String := (splitWsL s.toList).map String.mk

/-- Value of a non-empty digit string read in base 10. -/
def digitsVal (ds : List Char) : Int :=
  ds.foldl (fun acc c => acc * 10 + ((c.toNat : Int) - 48)) 0

/-- The optional sign step of parseInt: consume a leading minus or plus. -/
def parseIntSign : List Char → Int × List Char
  | [] => (1, [])
  | c :: t => if c = '-' then (-1, t) else if c = '+' then (1, t) else (1, c :: t)

/-- JS parseInt(s) in base 10: skip leading whitespace, an optional sign,
then read leading decimal digits; NaN (modelled as none) when no digit
follows. -/
def parseIntJS (s : String) : Option Int :=
  let p := parseIntSign (s.toList.dropWhile isWsChar)
  let ds := p.2.takeWhile isDigitChar
  if ds.isEmpty then none else some (p.1 * digitsVal ds)

/-- A catalog record (one entry of data/stamps.json). Missing optional fields
are the empty string, matching the (field or empty) coalescing the source
applies everywhere it reads them. -/
structure Stamp where
  id : String
  year : Int
  mainTopic : String
  subTopic : String
  denomination : String
  color : String
  notes : String
  image : String
deriving DecidableEq

/-- Decade of a record: Math.floor(year / 10) * 10 (floor division). -/
def decadeOf (s : Stamp) : Int := (s.year.fdiv 10) * 10

/-- preprocessStampsForSearch: the cached lowercase search blob of a record,
the space-join of mainTopic, subTopic, color, denomination, notes, the year
rendered in decimal, and the id. -/
def searchTextOf (s : Stamp) : String :=
  lowerStr (String.intercalate " "
    [s.mainTopic, s.subTopic, s.color, s.denomination, s.notes, toString s.year, s.id])

example : parseIntJS "1935" = some 1935 := by decide
example : parseIntJS "1900s" = some 1900 := by decide
example : parseIntJS "  -42x" = some (-42) := by decide
example : parseIntJS "s1900" = none := by decide
example : splitWs "red  beaver" = ["red", "beaver"] := by decide
example : containsSub "wilfred" "red" = true := by decide
example : containsSub "map of canada" "1900s" = false := by decide
example : lowerStr "Jacques Cartier" = "jacques cartier" := by decide
example : trimStr "  a b  " = "a b" := by decide

/-! ### Stable sorting

Array.prototype.sort with a consistent comparator is required by the
language specification to be a stable sort; a stable sort of a list under a
total preorder is unique, so it is embedded as insertion sort.  ordIns
places the inserted element in front of the first element it compares
less-or-equal to, which keeps earlier input elements in front of later
tied ones (stability). -/

def ordIns (le : α → α → Bool) (a : α) : List α → List α
  | [] => [a]
  | b :: l => if le a b then a :: b :: l else b :: ordIns le a l

def insSort (le : α → α → Bool) : List α → List α
  | [] => []
  | a :: l => ordIns le a (insSort le l)

theorem perm_ordIns (le : α → α → Bool) (a : α) (l : List α) :
    (ordIns le a l).Perm (a :: l) := by
  induction l with
  | nil => simp [ordIns]
  | cons b t ih =>
    by_cases h : le a b = true
    · simp [ordIns, h]
    · simp only [ordIns, h]
      simp only [Bool.false_eq_true, if_false]
      exact (ih.cons b).trans (List.Perm.swap a b t)

theorem perm_insSort (le : α → α → Bool) (l : List α) :
    (insSort le l).Perm l := by
  induction l with
  | nil => simp [insSort]
  | cons a t ih => exact (perm_ordIns le a (insSort le t)).trans (ih.cons a)

theorem mem_insSort (le : α → α → Bool) {l : List α} {x : α} :
    x ∈ insSort le l ↔ x ∈ l :=
  (perm_insSort le l).mem_iff

theorem mem_ordIns (le : α → α → Bool) {a x : α} {l : List α} :
    x ∈ ordIns le a l ↔ x = a ∨ x ∈ l := by
  rw [(perm_ordIns le a l).mem_iff]
  simp

theorem pairwise_ordIns (le : α → α → Bool) (a : α) (l : List α)
    (hs : l.Pairwise (fun x y => le x y = true))
    (htot : ∀ x ∈ a :: l, ∀ y ∈ a :: l, le x y = true ∨ le y x = true)
    (htrans : ∀ x ∈ a :: l, ∀ y ∈ a :: l, ∀ z ∈ a :: l,
       le x y = true → le y z = true → le x z = true) :
    (ordIns le a l).Pairwise (fun x y => le x y = true) := by
  induction l with
  | nil => simp [ordIns]
  | cons b t ih =>
    rcases List.pairwise_cons.mp hs with ⟨hb, ht⟩
    by_cases h : le a b = true
    · simp only [ordIns, h, if_true]
      refine List.pairwise_cons.mpr ⟨?_, hs⟩
      intro c hc
      rcases List.mem_cons.mp hc with rfl | hc
      · exact h
      · exact htrans a (by simp) b (by simp) c (by simp [hc]) h (hb c hc)
    · simp only [ordIns, h]
      simp only [Bool.false_eq_true, if_false]
      have hsub : ∀ x ∈ a :: t, x ∈ a :: b :: t := by
        intro x hx
        rcases List.mem_cons.mp hx with rfl | hx
        · simp
        · simp [hx]
      refine List.pairwise_cons.mpr ⟨?_, ?_⟩
      · intro c hc
        rcases (mem_ordIns le).mp hc with rfl | hc
        · rcases htot c (by simp) b (by simp) with h' | h'
          · exact absurd h' h
          · exact h'
        · exact hb c hc
      · refine ih ht ?_ ?_
        · intro x hx y hy
          exact htot x (hsub x hx) y (hsub y hy)
        · intro x hx y hy z hz
          exact htrans x (hsub x hx) y (hsub y hy) z (hsub z hz)

theorem pairwise_insSort (le : α → α → Bool) (l : List α)
    (htot : ∀ x ∈ l, ∀ y ∈ l, le x y = true ∨ le y x = true)
    (htrans : ∀ x ∈ l, ∀ y ∈ l, ∀ z ∈ l,
       le x y = true → le y z = true → le x z = true) :
    (insSort le l).Pairwise (fun x y => le x y = true) := by
  induction l with
  | nil => simp [insSort]
  | cons a t ih =>
    have hsub : ∀ x ∈ a :: insSort le t, x ∈ a :: t := by
      intro x hx
      rcases List.mem_cons.mp hx with rfl | hx
      · simp
      · simp [(mem_insSort le).mp hx]
    refine pairwise_ordIns le a (insSort le t) ?_ ?_ ?_
    · refine ih ?_ ?_
      · intro x hx y hy
        exact htot x (by simp [hx]) y (by simp [hy])
      · intro x hx y hy z hz
        exact htrans x (by simp [hx]) y (by simp [hy]) z (by simp [hz])
    · intro x hx y hy
      exact htot x (hsub x hx) y (hsub y hy)
    · intro x hx y hy z hz
      exact htrans x (hsub x hx) y (hsub y hy) z (hsub z hz)

/-- A sorted list is determined by its multiset of elements whenever the
order is antisymmetric on those elements. -/
theorem sorted_unique (le : α → α → Bool) :
    ∀ (l₁ l₂ : List α), l₁.Perm l₂ →
    l₁.Pairwise (fun x y => le x y = true) →
    l₂.Pairwise (fun x y => le x y = true) →
    (∀ x ∈ l₁, ∀ y ∈ l₁, le x y = true → le y x = true → x = y) →
    l₁ = l₂ := by
  intro l₁
  induction l₁ with
  | nil =>
    intro l₂ hp _ _ _
    exact hp.nil_eq
  | cons a t₁ ih =>
    intro l₂ hp h₁ h₂ hanti
    cases l₂ with
    | nil => exact absurd hp.symm.nil_eq (by simp)
    | cons b t₂ =>
      rcases List.pairwise_cons.mp h₁ with ⟨ha, ht₁⟩
      rcases List.pairwise_cons.mp h₂ with ⟨hb, ht₂⟩
      have hab : a = b := by
        by_cases hne : a = b
        · exact hne
        · have hbmem : b ∈ a :: t₁ := hp.symm.subset (List.mem_cons_self b t₂)
          have hamem : a ∈ b :: t₂ := hp.subset (List.mem_cons_self a t₁)
          have hb' : b ∈ t₁ := by
            rcases List.mem_cons.mp hbmem with h | h
            · exact absurd h.symm hne
            · exact h
          have ha' : a ∈ t₂ := by
            rcases List.mem_cons.mp hamem with h | h
            · exact absurd h hne
            · exact h
          exact hanti a (List.mem_cons_self a t₁) b (List.mem_cons_of_mem a hb')
            (ha b hb') (hb a ha')
      subst hab
      have hpt : t₁.Perm t₂ := hp.cons_inv
      have heq := ih t₂ hpt ht₁ ht₂
        (fun x hx y hy => hanti x (List.mem_cons_of_mem a hx) y (List.mem_cons_of_mem a hy))
      rw [heq]

/-! ### loadStamps sorting (both revisions share the comparator)

The comparator is: year difference when years differ, otherwise
parseInt(a.id) - parseInt(b.id).  When either parseInt is NaN the
subtraction is NaN, which the specification of SortCompare maps to +0, so
the pair counts as tied. -/

/-- The loadStamps sort comparator as an integer (negative: a before b). -/
def cmpStamps (a b : Stamp) : Int :=
  if a.year ≠ b.year then a.year - b.year
  else
    match parseIntJS a.id, parseIntJS b.id with
    | some x, some y => x - y
    | _, _ => 0

/-- Comparator-induced ordering used by the stable sort. -/
def leStamp (a b : Stamp) : Bool := cmpStamps a b ≤ 0

/-- The sorting step of loadStamps. -/
def sortStamps (l : List Stamp) : List Stamp := insSort leStamp l

theorem cmpStamps_neg (a b : Stamp) : cmpStamps b a = -(cmpStamps a b) := by
  unfold cmpStamps
  by_cases h : a.year = b.year
  · rw [if_neg (by simp [h]), if_neg (by simp [h])]
    rcases parseIntJS a.id with _ | x <;> rcases parseIntJS b.id with _ | y <;>
      simp [neg_sub]
  · rw [if_pos (fun hh => h hh.symm), if_pos h]
    ring

theorem leStamp_total (x y : Stamp) : leStamp x y = true ∨ leStamp y x = true := by
  simp only [leStamp, decide_eq_true_eq]
  rw [cmpStamps_neg x y]
  omega

theorem leStamp_iff {a b : Stamp} {x y : Int}
    (hx : parseIntJS a.id = some x) (hy : parseIntJS b.id = some y) :
    leStamp a b = true ↔ (a.year < b.year ∨ (a.year = b.year ∧ x ≤ y)) := by
  simp only [leStamp, decide_eq_true_eq]
  unfold cmpStamps
  by_cases h : a.year = b.year
  · rw [if_neg (by simp [h]), hx, hy]
    show x - y ≤ 0 ↔ a.year < b.year ∨ (a.year = b.year ∧ x ≤ y)
    constructor
    · intro hle
      right
      exact ⟨h, by omega⟩
    · intro hor
      rcases hor with hor | hor
      · omega
      · omega
  · rw [if_pos (by simp [h])]
    constructor
    · intro hle
      left
      omega
    · intro hor
      rcases hor with hor | hor
      · omega
      · exact absurd hor.1 h

/-- Claim C6 counterexample record: id parses as 1 via a leading zero. -/
def c6A : Stamp :=
  { id := "01", year := 1900, mainTopic := "Map", subTopic := "",
    denomination := "", color := "", notes := "", image := "a.jpg" }

/-- Claim C6 counterexample record: distinct id with the same parseInt image. -/
def c6B : Stamp :=
  { id := "1", year := 1900, mainTopic := "Flag", subTopic := "",
    denomination := "", color := "", notes := "", image := "b.jpg" }

/-- Claim C6 counterexample: two input arrays holding the same records in
different original orders sort to different outputs, because the comparator
ties distinct records whose ids share one parseInt value (same year, ids
"01" and "1"), and the stable sort then keeps each input order. -/
theorem loadStamps_sort_not_deterministic :
    List.Perm [c6A, c6B] [c6B, c6A] ∧ sortStamps [c6A, c6B] ≠ sortStamps [c6B, c6A] := by
  constructor
  · decide
  · decide

/-- Claim C6 (amended): loadStamps sorts by year ascending then by
parseInt(id) ascending via a stable sort; on inputs whose ids all parse as
integers and where no two distinct records share (year, parseInt(id)), the
result is a permutation of the input, it is sorted under the comparator,
and it is deterministic: every reordering of the input sorts to the same
list. -/
theorem loadStamps_sort_correct (l : List Stamp)
    (hparse : ∀ s ∈ l, (parseIntJS s.id).isSome = true)
    (hinj : ∀ a ∈ l, ∀ b ∈ l, a.year = b.year → parseIntJS a.id = parseIntJS b.id → a = b) :
    (sortStamps l).Perm l
    ∧ (sortStamps l).Pairwise (fun a b => leStamp a b = true)
    ∧ ∀ l₂, l.Perm l₂ → sortStamps l = sortStamps l₂ := by
  have htrans : ∀ (L : List Stamp), (∀ s ∈ L, (parseIntJS s.id).isSome = true) →
      ∀ x ∈ L, ∀ y ∈ L, ∀ z ∈ L,
      leStamp x y = true → leStamp y z = true → leStamp x z = true := by
    intro L hL x hx y hy z hz hxy hyz
    obtain ⟨ix, hix⟩ := Option.isSome_iff_exists.mp (hL x hx)
    obtain ⟨iy, hiy⟩ := Option.isSome_iff_exists.mp (hL y hy)
    obtain ⟨iz, hiz⟩ := Option.isSome_iff_exists.mp (hL z hz)
    rw [leStamp_iff hix hiy] at hxy
    rw [leStamp_iff hiy hiz] at hyz
    rw [leStamp_iff hix hiz]
    omega
  have hanti : ∀ x ∈ l, ∀ y ∈ l, leStamp x y = true → leStamp y x = true → x = y := by
    intro x hx y hy hxy hyx
    obtain ⟨ix, hix⟩ := Option.isSome_iff_exists.mp (hparse x hx)
    obtain ⟨iy, hiy⟩ := Option.isSome_iff_exists.mp (hparse y hy)
    rw [leStamp_iff hix hiy] at hxy
    rw [leStamp_iff hiy hix] at hyx
    have hyear : x.year = y.year := by omega
    have hval : ix = iy := by omega
    exact hinj x hx y hy hyear (by rw [hix, hiy, hval])
  refine ⟨perm_insSort leStamp l, ?_, ?_⟩
  · exact pairwise_insSort leStamp l (fun x _ y _ => leStamp_total x y) (htrans l hparse)
  · intro l₂ hperm
    have hparse₂ : ∀ s ∈ l₂, (parseIntJS s.id).isSome = true :=
      fun s hs => hparse s (hperm.symm.subset hs)
    have hp₁ : (sortStamps l).Perm (sortStamps l₂) :=
      ((perm_insSort leStamp l).trans hperm).trans (perm_insSort leStamp l₂).symm
    refine sorted_unique leStamp (sortStamps l) (sortStamps l₂) hp₁
      (pairwise_insSort leStamp l (fun x _ y _ => leStamp_total x y) (htrans l hparse))
      (pairwise_insSort leStamp l₂ (fun x _ y _ => leStamp_total x y) (htrans l₂ hparse₂))
      ?_
    intro x hx y hy
    exact hanti x ((mem_insSort leStamp).mp hx) y ((mem_insSort leStamp).mp hy)

/-- A record from a later year, used to exercise the amended sort theorem. -/
def c6C : Stamp :=
  { id := "156", year := 1935, mainTopic := "Jacques Cartier", subTopic := "",
    denomination := "", color := "", notes := "", image := "c.jpg" }

/-- Claim C6 amended-theorem witness at a concrete two-record catalog:
the sort permutes the input, and the reversed input sorts identically. -/
theorem loadStamps_sort_correct_witness :
    (sortStamps [c6C, c6A]).Perm [c6C, c6A]
    ∧ (sortStamps [c6C, c6A]).Pairwise (fun a b => leStamp a b = true)
    ∧ sortStamps [c6C, c6A] = sortStamps [c6A, c6C] :=
  ⟨(loadStamps_sort_correct [c6C, c6A] (by decide) (by decide)).1,
   (loadStamps_sort_correct [c6C, c6A] (by decide) (by decide)).2.1,
   (loadStamps_sort_correct [c6C, c6A] (by decide) (by decide)).2.2 [c6A, c6C] (by decide)⟩

/-! ### Incremental renderer (scheduleRender in src/js/app.js;
scheduleBatchRender / renderProgressiveBatch in src/unnamed/part_002)

The loop shifts records off renderQueue; for each record it appends a decade
marker node to the grid when the record's decade is not yet in
renderedDecades, adds the decade to the set, and appends the stamp element.
Frame scheduling and time-boxing only decide where batch boundaries fall;
the equivalence theorem renderDrive_eq shows the final grid contents are
independent of the batching. -/

/-- A child node of the stamp grid. -/
inductive RNode where
  | marker (decade : Int)
  | item (s : Stamp)
deriving DecidableEq

/-- One iteration of the render loop body.  State: (renderedDecades, grid
children so far). -/
def renderStep (st : List Int × List RNode) (s : Stamp) : List Int × List RNode :=
  let d := decadeOf s
  if d ∈ st.1 then (st.1, st.2 ++ [RNode.item s])
  else (st.1 ++ [d], st.2 ++ [RNode.marker d, RNode.item s])

/-- One renderBatch call: process up to batchSize queued records. -/
def renderBatchGo : Nat → List Stamp → List Int × List RNode → List Stamp × (List Int × List RNode)
  | 0, q, st => (q, st)
  | _ + 1, [], st => ([], st)
  | n + 1, s :: q, st => renderBatchGo n q (renderStep st s)

/-- The scheduleRender driver: repeat batches until the queue is empty.
fuel bounds the number of scheduled frames; any fuel at least the queue
length suffices (renderDrive_eq). -/
def renderDrive (batchSize : Nat) : Nat → List Stamp → List Int × List RNode → List RNode
  | 0, _, st => st.2
  | fuel + 1, q, st =>
    match q with
    | [] => st.2
    | _ :: _ =>
      let r := renderBatchGo batchSize q st
      renderDrive batchSize fuel r.1 r.2

/-- renderStampsVirtual: clear the grid and renderedDecades, queue every
record, and run the batched render loop (batch size 25 in app.js). -/
def renderStampsVirtual (stamps : List Stamp) : List RNode :=
  renderDrive 25 stamps.length stamps ([], [])

/-- Straight-line reference form of the render loop. -/
def renderFrom : List Stamp → List Int → List RNode
  | [], _ => []
  | s :: q, r =>
    let d := decadeOf s
    if d ∈ r then RNode.item s :: renderFrom q r
    else RNode.marker d :: RNode.item s :: renderFrom q (r ++ [d])

/-- The renderedDecades set after processing a record list. -/
def decadesAfter : List Stamp → List Int → List Int
  | [], r => r
  | s :: q, r =>
    let d := decadeOf s
    decadesAfter q (if d ∈ r then r else r ++ [d])

/-- The stamps projected from a grid child list, in order. -/
def itemsOf (out : List RNode) : List Stamp :=
  out.filterMap (fun n => match n with | RNode.item s => some s | RNode.marker _ => none)

theorem renderFrom_append (q₁ q₂ : List Stamp) (r : List Int) :
    renderFrom (q₁ ++ q₂) r = renderFrom q₁ r ++ renderFrom q₂ (decadesAfter q₁ r) := by
  induction q₁ generalizing r with
  | nil => simp [renderFrom, decadesAfter]
  | cons s q ih =>
    by_cases h : decadeOf s ∈ r <;>
      simp [renderFrom, decadesAfter, h, ih]

theorem renderBatchGo_eq (n : Nat) (q : List Stamp) (r : List Int) (o : List RNode) :
    renderBatchGo n q (r, o) =
      (q.drop n, (decadesAfter (q.take n) r, o ++ renderFrom (q.take n) r)) := by
  induction n generalizing q r o with
  | zero => simp [renderBatchGo, decadesAfter, renderFrom]
  | succ n ih =>
    cases q with
    | nil => simp [renderBatchGo, decadesAfter, renderFrom]
    | cons s q =>
      by_cases h : decadeOf s ∈ r <;>
        simp [renderBatchGo, renderStep, h, ih, decadesAfter, renderFrom]

theorem renderDrive_eq (bs : Nat) (hbs : 1 ≤ bs) :
    ∀ (fuel : Nat) (q : List Stamp) (r : List Int) (o : List RNode),
    q.length ≤ fuel →
    renderDrive bs fuel q (r, o) = o ++ renderFrom q r := by
  intro fuel
  induction fuel with
  | zero =>
    intro q r o hq
    cases q with
    | nil => simp [renderDrive, renderFrom]
    | cons s q => simp at hq
  | succ fuel ih =>
    intro q r o hq
    cases q with
    | nil => simp [renderDrive, renderFrom]
    | cons s q =>
      have hstep : renderDrive bs (fuel + 1) (s :: q) (r, o) =
          renderDrive bs fuel ((s :: q).drop bs)
            (decadesAfter ((s :: q).take bs) r, o ++ renderFrom ((s :: q).take bs) r) := by
        simp only [renderDrive]
        rw [renderBatchGo_eq]
      rw [hstep, ih _ _ _ ?_]
      · conv =>
          rhs
          rw [← List.take_append_drop bs (s :: q), renderFrom_append]
        rw [List.append_assoc]
      · rw [List.length_drop]
        simp only [List.length_cons] at hq ⊢
        omega

theorem itemsOf_renderFrom : ∀ (q : List Stamp) (r : List Int),
    itemsOf (renderFrom q r) = q := by
  intro q
  induction q with
  | nil => intro r; simp [renderFrom, itemsOf]
  | cons s q ih =>
    intro r
    by_cases h : decadeOf s ∈ r <;>
      simp [renderFrom, itemsOf, h] <;>
      simpa [itemsOf] using ih _

theorem count_renderFrom : ∀ (q : List Stamp) (r : List Int) (d : Int),
    (renderFrom q r).count (RNode.marker d) =
      if d ∈ q.map decadeOf ∧ d ∉ r then 1 else 0 := by
  intro q
  induction q with
  | nil => intro r d; simp [renderFrom]
  | cons s q ih =>
    intro r d
    by_cases h : decadeOf s ∈ r
    · rw [show renderFrom (s :: q) r = RNode.item s :: renderFrom q r by
        simp [renderFrom, h]]
      rw [List.count_cons, ih]
      by_cases hd : d = decadeOf s
      · subst hd
        simp [h]
      · simp only [List.map_cons, List.mem_cons]
        have : RNode.marker d ≠ RNode.item s := by simp
        simp [this, fun hh : d = decadeOf s => hd hh]
    · rw [show renderFrom (s :: q) r
          = RNode.marker (decadeOf s) :: RNode.item s :: renderFrom q (r ++ [decadeOf s]) by
        simp [renderFrom, h]]
      rw [List.count_cons, List.count_cons, ih]
      by_cases hd : d = decadeOf s
      · subst hd
        simp [h]
      · have h1 : (RNode.marker d == RNode.marker (decadeOf s)) = false := by
          simp [hd]
        have h2 : (RNode.marker d == RNode.item s) = false := by simp
        have hd' : ¬ decadeOf s = d := fun hh => hd hh.symm
        simp only [h1, h2, List.map_cons, List.mem_cons, List.mem_append,
          List.mem_singleton, if_false]
        by_cases hq : d ∈ q.map decadeOf <;> by_cases hr : d ∈ r <;>
          simp [hq, hr, hd, hd']

theorem itemsOf_cons_item (s : Stamp) (l : List RNode) :
    itemsOf (RNode.item s :: l) = s :: itemsOf l := by
  simp [itemsOf]

theorem itemsOf_cons_marker (d : Int) (l : List RNode) :
    itemsOf (RNode.marker d :: l) = itemsOf l := by
  simp [itemsOf]

theorem marker_first_renderFrom :
    ∀ (q : List Stamp) (r : List Int) (d : Int), d ∈ q.map decadeOf → d ∉ r →
    ∃ pre s post, renderFrom q r = pre ++ RNode.marker d :: RNode.item s :: post
      ∧ decadeOf s = d ∧ ∀ t ∈ itemsOf pre, decadeOf t ≠ d := by
  intro q
  induction q with
  | nil => intro r d hd; simp at hd
  | cons s0 q ih =>
    intro r d hd hr
    by_cases hd0 : d = decadeOf s0
    · subst hd0
      rw [show renderFrom (s0 :: q) r
          = RNode.marker (decadeOf s0) :: RNode.item s0 :: renderFrom q (r ++ [decadeOf s0]) by
        simp [renderFrom, hr]]
      exact ⟨[], s0, renderFrom q (r ++ [decadeOf s0]), by simp, rfl, by simp [itemsOf]⟩
    · have hdq : d ∈ q.map decadeOf := by
        rw [List.map_cons] at hd
        rcases List.mem_cons.mp hd with h | h
        · exact absurd h hd0
        · exact h
      by_cases h0 : decadeOf s0 ∈ r
      · rw [show renderFrom (s0 :: q) r = RNode.item s0 :: renderFrom q r by
          simp [renderFrom, h0]]
        obtain ⟨pre, s, post, heq, hds, hpre⟩ := ih r d hdq hr
        refine ⟨RNode.item s0 :: pre, s, post, by simp [heq], hds, ?_⟩
        intro t ht
        rw [itemsOf_cons_item] at ht
        rcases List.mem_cons.mp ht with rfl | ht2
        · exact fun hh => hd0 hh.symm
        · exact hpre t ht2
      · rw [show renderFrom (s0 :: q) r
            = RNode.marker (decadeOf s0) :: RNode.item s0 :: renderFrom q (r ++ [decadeOf s0]) by
          simp [renderFrom, h0]]
        have hr' : d ∉ r ++ [decadeOf s0] := by
          simp only [List.mem_append, List.mem_singleton]
          rintro (h | h)
          · exact hr h
          · exact hd0 h
        obtain ⟨pre, s, post, heq, hds, hpre⟩ := ih (r ++ [decadeOf s0]) d hdq hr'
        refine ⟨RNode.marker (decadeOf s0) :: RNode.item s0 :: pre, s, post,
          by simp [heq], hds, ?_⟩
        intro t ht
        rw [itemsOf_cons_marker, itemsOf_cons_item] at ht
        rcases List.mem_cons.mp ht with rfl | ht2
        · exact fun hh => hd0 hh.symm
        · exact hpre t ht2

/-- Claim C3: when the incremental renderer's queue becomes empty, every
record has exactly one item node and the items appear in catalog sort
order; every decade occurring in the catalog has exactly one marker node,
placed immediately before the first record of that decade (no earlier item
of the output shares that decade). -/
theorem renderer_complete (stamps : List Stamp)
    (hsorted : stamps.Pairwise (fun a b => a.year ≤ b.year)) :
    itemsOf (renderStampsVirtual stamps) = stamps
    ∧ (itemsOf (renderStampsVirtual stamps)).Pairwise (fun a b => a.year ≤ b.year)
    ∧ (∀ d : Int, (renderStampsVirtual stamps).count (RNode.marker d)
        = if d ∈ stamps.map decadeOf then 1 else 0)
    ∧ (∀ d ∈ stamps.map decadeOf, ∃ pre s post,
        renderStampsVirtual stamps = pre ++ RNode.marker d :: RNode.item s :: post
        ∧ decadeOf s = d ∧ ∀ t ∈ itemsOf pre, decadeOf t ≠ d) := by
  have hdrive : renderStampsVirtual stamps = renderFrom stamps [] := by
    unfold renderStampsVirtual
    rw [renderDrive_eq 25 (by omega) stamps.length stamps [] [] (le_refl _)]
    simp
  refine ⟨?_, ?_, ?_, ?_⟩
  · rw [hdrive]
    exact itemsOf_renderFrom stamps []
  · rw [hdrive, itemsOf_renderFrom]
    exact hsorted
  · intro d
    rw [hdrive, count_renderFrom]
    simp
  · intro d hd
    rw [hdrive]
    exact marker_first_renderFrom stamps [] d hd (by simp)

/-- First record of the built-in sample catalog (createSampleData). -/
def demoA : Stamp :=
  { id := "001", year := 1851, mainTopic := "Beaver", subTopic := "Three Pence",
    denomination := "3d", color := "red", notes := "First Canadian stamp",
    image := "images/1850s/001-beaver-1851.jpg" }

/-- Second record of the built-in sample catalog (createSampleData). -/
def demoB : Stamp :=
  { id := "002", year := 1852, mainTopic := "Prince Albert", subTopic := "Six Pence",
    denomination := "6d", color := "purple", notes := "",
    image := "images/1850s/002-albert-1852.jpg" }

/-- Third record of the built-in sample catalog (createSampleData). -/
def demoC : Stamp :=
  { id := "156", year := 1935, mainTopic := "Jacques Cartier", subTopic := "Explorer Series",
    denomination := "3c", color := "brown", notes := "Part of historical series",
    image := "images/1930s/156-cartier-1935.jpg" }

/-- Claim C3 witness at the three-record sample catalog (years 1851, 1852,
1935: two decade groups), with the marker-count conjunct instantiated at
the decades 1850 and 1930. -/
theorem renderer_complete_witness :
    itemsOf (renderStampsVirtual [demoA, demoB, demoC]) = [demoA, demoB, demoC]
    ∧ (itemsOf (renderStampsVirtual [demoA, demoB, demoC])).Pairwise
        (fun a b => a.year ≤ b.year)
    ∧ (renderStampsVirtual [demoA, demoB, demoC]).count (RNode.marker 1850)
        = (if (1850 : Int) ∈ [demoA, demoB, demoC].map decadeOf then 1 else 0)
    ∧ (renderStampsVirtual [demoA, demoB, demoC]).count (RNode.marker 1930)
        = (if (1930 : Int) ∈ [demoA, demoB, demoC].map decadeOf then 1 else 0) :=
  ⟨(renderer_complete [demoA, demoB, demoC] (by decide)).1,
   (renderer_complete [demoA, demoB, demoC] (by decide)).2.1,
   (renderer_complete [demoA, demoB, demoC] (by decide)).2.2.1 1850,
   (renderer_complete [demoA, demoB, demoC] (by decide)).2.2.1 1930⟩

/-! ### Image lifecycle manager (src/js/app.js lines 390-560) -/

/-- The img element state the image pipeline touches: its current src, its
data-src attribute, the lazy-load class, and whether showImagePlaceholder
has swapped in the topic-text fallback visual (the visual details of that
fallback are abstracted into this flag). -/
structure ImgElem where
  src : String
  datasetSrc : String
  lazyClass : Bool
  placeholderShown : Bool
deriving DecidableEq

/-- getPlaceholderSrc: the inline 1x1 SVG data URL. -/
def placeholderSrc : String :=
  "data:image/svg+xml;base64,PHN2ZyB3aWR0aD0iMSIgaGVpZ2h0PSIxIiB2aWV3Qm94PSIwIDAgMSAxIiBmaWxsPSJub25lIiB4bWxucz0iaHR0cDovL3d3dy53My5vcmcvMjAwMC9zdmciPjxyZWN0IHdpZHRoPSIxIiBoZWlnaHQ9IjEiIGZpbGw9IiNmMGYwZjAiLz48L3N2Zz4="

/-- Association-list model of the cache Map: first binding wins on lookup
(bindings stay unique because insertion goes through setA). -/
def lookupA (k : String) : List (String × String) → Option String
  | [] => none
  | (k2, v) :: m => if k2 = k then some v else lookupA k m

/-- Map.prototype.set: update in place when the key is present, otherwise
append, preserving iteration (insertion) order. -/
def setA (k v : String) (m : List (String × String)) : List (String × String) :=
  if (lookupA k m).isSome then m.map (fun p => if p.1 = k then (k, v) else p)
  else m ++ [(k, v)]

/-- A DOMRect as produced by getBoundingClientRect, over the rationals. -/
structure Rect where
  left : ℚ
  top : ℚ
  right : ℚ
  bottom : ℚ
  width : ℚ
  height : ℚ
deriving DecidableEq

/-- Math.abs over the rationals. -/
def qAbs (x : ℚ) : ℚ := if x < 0 then -x else x

/-- Math.min over the rationals. -/
def qMin (x y : ℚ) : ℚ := if x ≤ y then x else y

/-- unloadImageIfFaraway's distance: the minimum of the four absolute edge
differences between the element rect and the container rect. -/
def rectDistance (r vr : Rect) : ℚ :=
  qMin (qMin (qAbs (r.top - vr.bottom)) (qAbs (r.bottom - vr.top)))
       (qMin (qAbs (r.left - vr.right)) (qAbs (r.right - vr.left)))

/-- Mutable state shared by the app.js image pipeline as far as eviction
and cache reuse are concerned: the path-to-objectURL cache map, the set of
revoked object URLs, and the preload queue of pending sources. -/
structure AppImgState where
  cache : List (String × String)
  revoked : List String
  preloadQueue : List String
deriving DecidableEq

/-- unloadImageIfFaraway (app.js lines 534-555): when the element currently
shows a blob URL and lies more than 2000px from the container, revoke the
object URL and swap the placeholder back in.  The cache map entry for the
path is left untouched. -/
def unloadImageIfFaraway (st : AppImgState) (e : ImgElem) (r vr : Rect) :
    AppImgState × ImgElem :=
  if e.src ≠ "" ∧ strBegins e.src "blob:" = true then
    if rectDistance r vr > 2000 then
      ({ st with revoked := e.src :: st.revoked },
       { e with src := placeholderSrc, lazyClass := true })
    else (st, e)
  else (st, e)

/-- prioritizeImageLoad (app.js lines 429-444): return when there is no
data-src or it is already shown; serve a cache hit by assigning the cached
objectURL directly; otherwise put the source at the head of the preload
queue for processImageQueue to fetch. -/
def prioritizeImageLoad (st : AppImgState) (e : ImgElem) : AppImgState × ImgElem :=
  if e.datasetSrc = "" ∨ e.src = e.datasetSrc then (st, e)
  else
    match lookupA e.datasetSrc st.cache with
    | some cachedSrc => (st, { e with src := cachedSrc, lazyClass := false })
    | none => ({ st with preloadQueue := e.datasetSrc :: st.preloadQueue }, e)

/-- Concrete image path for the Claim C1 failing input. -/
def c1Path : String := "images/1850s/001-beaver-1851.jpg"

/-- Concrete object URL for the Claim C1 failing input. -/
def c1Blob : String := "blob:null/1a2b"

/-- Claim C1 failing input: the image at c1Path has loaded, so the cache
maps c1Path to the blob handle the element displays. -/
def c1St : AppImgState :=
  { cache := [(c1Path, c1Blob)], revoked := [], preloadQueue := [] }

/-- The rendered element showing the loaded blob for c1Path. -/
def c1Elem : ImgElem :=
  { src := c1Blob, datasetSrc := c1Path, lazyClass := false, placeholderShown := false }

/-- Element rect after scrolling far away (over 2000px from the container
on every edge). -/
def c1FarRect : Rect :=
  { left := 5000, top := 5000, right := 5100, bottom := 5100, width := 100, height := 100 }

/-- The canvas container rect. -/
def c1ViewRect : Rect :=
  { left := 0, top := 0, right := 1200, bottom := 800, width := 1200, height := 800 }

/-- Claim C1 (code bug): evaluating the code at the failing input.  The
eviction revokes the blob URL and swaps in the placeholder, but the cache
map still holds the entry for the path; when the item re-enters the
viewport, prioritizeImageLoad takes the cache-hit branch, assigns the
revoked handle back to the element, and queues no fresh fetch — the
opposite of the claimed remove-then-refetch behaviour. -/
theorem eviction_reuses_freed_handle :
    (unloadImageIfFaraway c1St c1Elem c1FarRect c1ViewRect).2.src = placeholderSrc
    ∧ c1Blob ∈ (unloadImageIfFaraway c1St c1Elem c1FarRect c1ViewRect).1.revoked
    ∧ lookupA c1Path (unloadImageIfFaraway c1St c1Elem c1FarRect c1ViewRect).1.cache
        = some c1Blob
    ∧ (prioritizeImageLoad (unloadImageIfFaraway c1St c1Elem c1FarRect c1ViewRect).1
        (unloadImageIfFaraway c1St c1Elem c1FarRect c1ViewRect).2).2.src = c1Blob
    ∧ (prioritizeImageLoad (unloadImageIfFaraway c1St c1Elem c1FarRect c1ViewRect).1
        (unloadImageIfFaraway c1St c1Elem c1FarRect c1ViewRect).2).1.preloadQueue = [] := by
  have hdist : rectDistance c1FarRect c1ViewRect > 2000 := by
    unfold rectDistance c1FarRect c1ViewRect qMin qAbs
    norm_num
  have hcond : c1Elem.src ≠ "" ∧ strBegins c1Elem.src "blob:" = true := by decide
  have h1 : unloadImageIfFaraway c1St c1Elem c1FarRect c1ViewRect
      = ({ c1St with revoked := c1Elem.src :: c1St.revoked },
         { c1Elem with src := placeholderSrc, lazyClass := true }) := by
    unfold unloadImageIfFaraway
    rw [if_pos hcond, if_pos hdist]
  rw [h1]
  decide

/-! ### Bounded-concurrency load queue (processImageQueue, app.js 468-498;
prioritizeImageLoad in part_002 438-487 follows the same
guard/increment/finally-decrement discipline) -/

/-- An entry of the preload queue: the target img element (by a node id)
and the source path it was queued for. -/
structure LoadItem where
  imgId : Nat
  src : String
deriving DecidableEq

/-- State of the concurrent loader: the cache, the preload queue, the
active-load counter, the set of in-flight fetches (started, not yet
settled), and the rendered img elements by node id. -/
structure QueueState where
  cache : List (String × String)
  preloadQueue : List LoadItem
  currentLoads : Nat
  inFlight : List LoadItem
  imgs : List (Nat × ImgElem)
deriving DecidableEq

/-- Element lookup by node id. -/
def lookupImg (i : Nat) : List (Nat × ImgElem) → Option ImgElem
  | [] => none
  | (j, e) :: m => if j = i then some e else lookupImg i m

/-- Element update by node id. -/
def updImg (i : Nat) (f : ImgElem → ImgElem) : List (Nat × ImgElem) → List (Nat × ImgElem)
  | [] => []
  | (j, e) :: m => (if j = i then (j, f e) else (j, e)) :: updImg i f m

/-- processImageQueue (app.js): return when the concurrency ceiling is
reached or the queue is empty; otherwise shift one item, bump the counter,
and start its fetch (the item becomes in flight). -/
def processImageQueue (maxConcurrentLoads : Nat) (s : QueueState) : QueueState :=
  if maxConcurrentLoads ≤ s.currentLoads ∨ s.preloadQueue.isEmpty then s
  else
    match s.preloadQueue with
    | [] => s
    | item :: rest =>
      { s with preloadQueue := rest, currentLoads := s.currentLoads + 1,
               inFlight := item :: s.inFlight }

/-- How a fetch settles.  failure covers network errors, non-ok statuses,
and the abort-based timeout of the part_002 revision: each rejects the
promise into the catch handler, so cancellation is a failure here. -/
inductive LoadOutcome where
  | success (objectUrl : String)
  | failure
deriving DecidableEq

/-- The then/catch/finally handlers installed by processImageQueue.  On
success the object URL is stored in the cache and applied to the element
only when its data-src still equals the fetched path; on failure
showImagePlaceholder marks the element (abstracted as the placeholderShown
flag); in every case the finally clause decrements the active-load
counter, releasing the slot. -/
def settleLoad (item : LoadItem) (o : LoadOutcome) (s : QueueState) : QueueState :=
  let s1 :=
    match o with
    | .success objectUrl =>
      let cache2 := setA item.src objectUrl s.cache
      let imgs2 :=
        match lookupImg item.imgId s.imgs with
        | some img =>
          if img.datasetSrc = item.src then
            updImg item.imgId (fun im => { im with src := objectUrl, lazyClass := false })
              s.imgs
          else s.imgs
        | none => s.imgs
      { s with cache := cache2, imgs := imgs2 }
    | .failure =>
      { s with imgs := updImg item.imgId (fun im => { im with placeholderShown := true }) s.imgs }
  { s1 with currentLoads := s1.currentLoads - 1, inFlight := s1.inFlight.erase item }

/-- One event of the single-threaded loop around the load queue:
prioritizeImageLoad enqueueing (unshift plus an immediate
processImageQueue), a bare processImageQueue invocation
(startPreloadingImages or the setTimeout scheduled by finally), or a
started fetch settling. -/
inductive QEv where
  | enqueue (item : LoadItem)
  | process
  | settle (item : LoadItem) (o : LoadOutcome)

/-- Event step.  A settle event only fires for an in-flight fetch (a
started promise settles exactly once). -/
def qStep (maxConcurrentLoads : Nat) (s : QueueState) : QEv → QueueState
  | .enqueue item =>
      processImageQueue maxConcurrentLoads { s with preloadQueue := item :: s.preloadQueue }
  | .process => processImageQueue maxConcurrentLoads s
  | .settle item o => if item ∈ s.inFlight then settleLoad item o s else s

/-- Run a trace of events. -/
def qRun (maxConcurrentLoads : Nat) (evs : List QEv) (s : QueueState) : QueueState :=
  evs.foldl (qStep maxConcurrentLoads) s

/-- Start state: nothing in flight, counter zero. -/
def qStart (imgs0 : List (Nat × ImgElem)) (queue0 : List LoadItem) : QueueState :=
  { cache := [], preloadQueue := queue0, currentLoads := 0, inFlight := [], imgs := imgs0 }

theorem settleLoad_currentLoads (item : LoadItem) (o : LoadOutcome) (s : QueueState) :
    (settleLoad item o s).currentLoads = s.currentLoads - 1 := by
  cases o <;> rfl

theorem settleLoad_inFlight (item : LoadItem) (o : LoadOutcome) (s : QueueState) :
    (settleLoad item o s).inFlight = s.inFlight.erase item := by
  cases o <;> rfl

theorem qStep_inv (maxConcurrentLoads : Nat) (s : QueueState) (e : QEv)
    (h1 : s.currentLoads = s.inFlight.length)
    (h2 : s.currentLoads ≤ maxConcurrentLoads) :
    (qStep maxConcurrentLoads s e).currentLoads
      = (qStep maxConcurrentLoads s e).inFlight.length
    ∧ (qStep maxConcurrentLoads s e).currentLoads ≤ maxConcurrentLoads := by
  have hproc : ∀ t : QueueState, t.currentLoads = t.inFlight.length →
      t.currentLoads ≤ maxConcurrentLoads →
      (processImageQueue maxConcurrentLoads t).currentLoads
        = (processImageQueue maxConcurrentLoads t).inFlight.length
      ∧ (processImageQueue maxConcurrentLoads t).currentLoads ≤ maxConcurrentLoads := by
    intro t ht1 ht2
    unfold processImageQueue
    by_cases hg : maxConcurrentLoads ≤ t.currentLoads ∨ t.preloadQueue.isEmpty = true
    · rw [if_pos hg]
      exact ⟨ht1, ht2⟩
    · rw [if_neg hg]
      push_neg at hg
      cases hq : t.preloadQueue with
      | nil => exact ⟨ht1, ht2⟩
      | cons item rest =>
        constructor
        · simp [ht1]
        · have : t.currentLoads < maxConcurrentLoads := hg.1
          simp
          omega
  cases e with
  | enqueue item =>
    exact hproc { s with preloadQueue := item :: s.preloadQueue } h1 h2
  | process => exact hproc s h1 h2
  | settle item o =>
    simp only [qStep]
    by_cases hm : item ∈ s.inFlight
    · rw [if_pos hm]
      rw [settleLoad_currentLoads, settleLoad_inFlight]
      have hlen : s.inFlight.length = (s.inFlight.erase item).length + 1 :=
        (List.length_erase_add_one hm).symm
      constructor
      · omega
      · omega
    · rw [if_neg hm]
      exact ⟨h1, h2⟩

theorem qRun_inv (maxConcurrentLoads : Nat) (evs : List QEv) :
    ∀ (s : QueueState), s.currentLoads = s.inFlight.length →
    s.currentLoads ≤ maxConcurrentLoads →
    (qRun maxConcurrentLoads evs s).currentLoads
      = (qRun maxConcurrentLoads evs s).inFlight.length
    ∧ (qRun maxConcurrentLoads evs s).currentLoads ≤ maxConcurrentLoads := by
  induction evs with
  | nil => intro s h1 h2; exact ⟨h1, h2⟩
  | cons e evs ih =>
    intro s h1 h2
    have hstep := qStep_inv maxConcurrentLoads s e h1 h2
    exact ih (qStep maxConcurrentLoads s e) hstep.1 hstep.2

/-- Claim C4: along every event trace from the start state, the
active-load counter always equals the number of in-flight fetches and
never exceeds maxConcurrentLoads; and every settle of an in-flight fetch —
success or failure (failure includes error statuses and the abort-based
cancellation) — decrements the counter by exactly one, so a completed load
always releases its slot and failures never shrink the budget
permanently. -/
theorem concurrency_bounded (maxConcurrentLoads : Nat) (imgs0 : List (Nat × ImgElem))
    (queue0 : List LoadItem) (evs : List QEv) :
    (qRun maxConcurrentLoads evs (qStart imgs0 queue0)).currentLoads
      = (qRun maxConcurrentLoads evs (qStart imgs0 queue0)).inFlight.length
    ∧ (qRun maxConcurrentLoads evs (qStart imgs0 queue0)).currentLoads ≤ maxConcurrentLoads
    ∧ ∀ (item : LoadItem) (o : LoadOutcome),
        item ∈ (qRun maxConcurrentLoads evs (qStart imgs0 queue0)).inFlight →
        (qStep maxConcurrentLoads (qRun maxConcurrentLoads evs (qStart imgs0 queue0))
            (QEv.settle item o)).currentLoads + 1
          = (qRun maxConcurrentLoads evs (qStart imgs0 queue0)).currentLoads := by
  obtain ⟨h1, h2⟩ := qRun_inv maxConcurrentLoads evs (qStart imgs0 queue0) rfl (Nat.zero_le _)
  refine ⟨h1, h2, ?_⟩
  intro item o hm
  simp only [qStep]
  rw [if_pos hm, settleLoad_currentLoads]
  have hpos : 0 < (qRun maxConcurrentLoads evs (qStart imgs0 queue0)).currentLoads := by
    rw [h1]
    exact List.length_pos_of_mem hm
  omega

/-- A queued load used to exercise the concurrency theorem. -/
def c4Item : LoadItem := { imgId := 0, src := "images/x.jpg" }

/-- Claim C4 witness: one processImageQueue call starts the queued fetch;
settling it with a failure returns the counter from one to zero. -/
theorem concurrency_bounded_witness :
    (qStep 6 (qRun 6 [QEv.process] (qStart [] [c4Item]))
        (QEv.settle c4Item LoadOutcome.failure)).currentLoads + 1
      = (qRun 6 [QEv.process] (qStart [] [c4Item])).currentLoads :=
  (concurrency_bounded 6 [] [c4Item] [QEv.process]).2.2 c4Item LoadOutcome.failure (by decide)

theorem lookupImg_updImg (i : Nat) (f : ImgElem → ImgElem) :
    ∀ (m : List (Nat × ImgElem)), lookupImg i (updImg i f m) = (lookupImg i m).map f := by
  intro m
  induction m with
  | nil => rfl
  | cons p m ih =>
    obtain ⟨j, e⟩ := p
    by_cases h : j = i
    · subst h
      rw [show updImg j f ((j, e) :: m) = (j, f e) :: updImg j f m by simp [updImg]]
      simp [lookupImg]
    · rw [show updImg i f ((j, e) :: m) = (j, e) :: updImg i f m by simp [updImg, h]]
      simp [lookupImg, h, ih]

/-- Claim C5: when a fetch for item settles successfully, the decoded
result is applied to the target element only if the element's data-src
still equals the fetched path: on a mismatch every rendered element is
left exactly as it was (the stale result is discarded silently), and on a
match the element receives the object URL and drops the lazy class. -/
theorem stale_result_discarded (s : QueueState) (item : LoadItem) (url : String)
    (img : ImgElem) (himg : lookupImg item.imgId s.imgs = some img) :
    (img.datasetSrc ≠ item.src →
       (settleLoad item (LoadOutcome.success url) s).imgs = s.imgs)
    ∧ (img.datasetSrc = item.src →
       lookupImg item.imgId (settleLoad item (LoadOutcome.success url) s).imgs
         = some { img with src := url, lazyClass := false }) := by
  constructor
  · intro hne
    simp only [settleLoad, himg]
    rw [if_neg hne]
  · intro heq
    simp only [settleLoad, himg]
    rw [if_pos heq, lookupImg_updImg, himg]
    rfl

/-- The in-flight load of the Claim C5 witness. -/
def c5Item : LoadItem := { imgId := 0, src := "images/a.jpg" }

/-- Claim C5 witness element: its data-src has moved on to another path
while the fetch for images/a.jpg was in flight. -/
def c5Img : ImgElem :=
  { src := placeholderSrc, datasetSrc := "images/b.jpg", lazyClass := true,
    placeholderShown := false }

/-- Claim C5 witness state. -/
def c5State : QueueState :=
  { cache := [], preloadQueue := [], currentLoads := 1, inFlight := [c5Item],
    imgs := [(0, c5Img)] }

/-- Claim C5 witness: the stale success leaves every element untouched. -/
theorem stale_result_discarded_witness :
    (settleLoad c5Item (LoadOutcome.success "blob:null/9z") c5State).imgs = c5State.imgs :=
  (stale_result_discarded c5State c5Item "blob:null/9z" c5Img (by decide)).1 (by decide)

/-! ### Cache ceiling and periodic safety sweep (src/unnamed/part_002)

setupMobileOptimizations installs a 5-second interval whose callback calls
emergencyImageCleanup once the cache has grown past 0.8 * maxCacheSize;
the cleanup unloads far-away elements (which never touches the cache map)
and, when the map size exceeds maxCacheSize, deletes the first third of
its entries in Map insertion order, revoking their handles.  The only
insertion site of this revision is the load-completion handler of
prioritizeImageLoad, guarded by size < maxCacheSize.  Timer ticks
interleave freely with load completions in the event trace, modelling the
sweep running independently of per-item visibility callbacks. -/

/-- Cache insertion on load completion (prioritizeImageLoad, part_002):
the entry is stored only while strictly below the ceiling. -/
def cacheInsertOnLoad (maxCacheSize : Nat) (p u : String)
    (m : List (String × String)) : List (String × String) :=
  if m.length < maxCacheSize then setA p u m else m

/-- The cache-map part of emergencyImageCleanup: when over the ceiling,
delete the first third of the entries. -/
def emergencyCacheClean (maxCacheSize : Nat) (m : List (String × String)) :
    List (String × String) :=
  if maxCacheSize < m.length then m.drop (m.length / 3) else m

/-- One tick of the memoryCheckInterval timer: sweep once the size passes
80 percent of the ceiling. -/
def memoryCheckTick (maxCacheSize : Nat) (m : List (String × String)) :
    List (String × String) :=
  if (maxCacheSize : ℚ) * (4 / 5) < (m.length : ℚ) then emergencyCacheClean maxCacheSize m
  else m

/-- Cache events: a load completing (driven by visibility) or a timer tick
(independent of visibility). -/
inductive CacheEv where
  | load (p u : String)
  | tick

/-- Apply one cache event. -/
def cacheStep (maxCacheSize : Nat) (m : List (String × String)) :
    CacheEv → List (String × String)
  | .load p u => cacheInsertOnLoad maxCacheSize p u m
  | .tick => memoryCheckTick maxCacheSize m

/-- Run a trace of cache events from the empty cache. -/
def cacheRun (maxCacheSize : Nat) (evs : List CacheEv) : List (String × String) :=
  evs.foldl (cacheStep maxCacheSize) []

theorem length_setA (k v : String) (m : List (String × String)) :
    (setA k v m).length ≤ m.length + 1 := by
  unfold setA
  by_cases h : (lookupA k m).isSome
  · rw [if_pos h]
    simp
  · rw [if_neg h]
    simp

/-- Claim C2: along every interleaving of load completions and timer
ticks — every scroll pattern — the cache map holds at most maxCacheSize
entries; in particular the bound holds immediately after each run of the
periodic safety sweep, which fires on the timer trace positions
independently of per-item visibility events. -/
theorem cache_ceiling (maxCacheSize : Nat) (evs : List CacheEv) :
    (cacheRun maxCacheSize evs).length ≤ maxCacheSize := by
  suffices h : ∀ m : List (String × String), m.length ≤ maxCacheSize →
      (evs.foldl (cacheStep maxCacheSize) m).length ≤ maxCacheSize by
    exact h [] (by simp)
  induction evs with
  | nil => intro m hm; exact hm
  | cons e evs ih =>
    intro m hm
    apply ih
    cases e with
    | load p u =>
      show (cacheInsertOnLoad maxCacheSize p u m).length ≤ maxCacheSize
      unfold cacheInsertOnLoad
      by_cases hlen : m.length < maxCacheSize
      · rw [if_pos hlen]
        have := length_setA p u m
        omega
      · rw [if_neg hlen]
        exact hm
    | tick =>
      show (memoryCheckTick maxCacheSize m).length ≤ maxCacheSize
      unfold memoryCheckTick emergencyCacheClean
      by_cases h1 : (maxCacheSize : ℚ) * (4 / 5) < (m.length : ℚ)
      · rw [if_pos h1]
        by_cases h2 : maxCacheSize < m.length
        · rw [if_pos h2]
          rw [List.length_drop]
          omega
        · rw [if_neg h2]
          exact hm
      · rw [if_neg h1]
        exact hm

/-! ### Search (handleSearch, matchesSearchTerm, calculateRelevanceScore,
fuzzyMatch in src/js/app.js lines 1029-1185) -/

/-- The synonym table of fuzzyMatch (app.js), in source order. -/
def synonyms : List (String × List String) :=
  [ ("red", ["crimson", "scarlet", "carmine", "rose"]),
    ("blue", ["azure", "navy", "ultramarine", "cobalt"]),
    ("green", ["emerald", "forest", "sage", "olive"]),
    ("yellow", ["golden", "amber", "lemon"]),
    ("purple", ["violet", "magenta", "mauve"]),
    ("brown", ["sepia", "tan", "bronze", "chocolate"]),
    ("black", ["ebony", "coal"]),
    ("white", ["ivory", "cream"]),
    ("orange", ["vermillion", "coral"]),
    ("queen", ["elizabeth", "victoria", "royal", "monarch"]),
    ("king", ["george", "edward", "royal", "monarch"]),
    ("flower", ["floral", "bloom", "blossom"]),
    ("bird", ["avian", "eagle", "hawk"]),
    ("ship", ["vessel", "boat", "maritime"]),
    ("plane", ["aircraft", "aviation", "flight"]),
    ("olympics", ["olympic", "games", "sport"]),
    ("christmas", ["xmas", "holiday", "noel"]),
    ("maple", ["leaf", "canada"]),
    ("beaver", ["animal", "fur"]),
    ("flag", ["banner", "ensign"]),
    ("cent", ["¢", "cents", "penny"]),
    ("dollar", ["$", "dollars"]),
    ("pence", ["penny", "pennies", "d"]),
    ("cartier", ["carteer", "cartiar"]),
    ("centennial", ["centinal", "centenial"]),
    ("commemor", ["commem", "memorial"]),
    ("definitiv", ["defin", "regular"]) ]

/-- fuzzyMatch (app.js): a hit is a synonym row that lists the word while
its key occurs in the text, or any of the word's variations (the word plus
its own synonym row) occurring in the text. -/
def fuzzyMatch (text w : String) : Bool :=
  (synonyms.any (fun kv => kv.2.contains w && containsSub text kv.1))
  || (w :: ((synonyms.find? (fun kv => kv.1 == w)).elim [] (fun kv => kv.2))).any
      (fun v => containsSub text v)

/-- matchesSearchTerm: every word of the query must occur in the record's
cached search text directly or through fuzzyMatch. -/
def matchesSearchTerm (s : Stamp) (searchTerm : String) : Bool :=
  (splitWs searchTerm).all
    (fun w => containsSub (searchTextOf s) w || fuzzyMatch (searchTextOf s) w)

/-- Per-word field scoring of calculateRelevanceScore. -/
def fieldScore (s : Stamp) (w : String) : Nat :=
  (if containsSub (lowerStr s.mainTopic) w = true then
     (if lowerStr s.mainTopic == w then 100 else 50) else 0)
  + (if containsSub (lowerStr s.subTopic) w = true then
     (if lowerStr s.subTopic == w then 80 else 40) else 0)
  + (if containsSub (lowerStr s.color) w = true then 30 else 0)
  + (if containsSub (lowerStr s.denomination) w = true then 25 else 0)
  + (if containsSub (lowerStr s.notes) w = true then 20 else 0)
  + (if containsSub (lowerStr s.id) w = true then 15 else 0)
  + (if containsSub (toString s.year) w = true then 10 else 0)

/-- calculateRelevanceScore: the sum of the per-word field scores. -/
def calculateRelevanceScore (s : Stamp) (searchTerm : String) : Nat :=
  ((splitWs searchTerm).map (fieldScore s)).sum

/-- The match-sort comparator of handleSearch: score descending, then year
ascending. -/
def relCmp (searchTerm : String) (a b : Stamp) : Int :=
  if calculateRelevanceScore a searchTerm ≠ calculateRelevanceScore b searchTerm then
    (calculateRelevanceScore b searchTerm : Int) - (calculateRelevanceScore a searchTerm : Int)
  else a.year - b.year

/-- Comparator-induced ordering used by the stable match sort. -/
def relLe (searchTerm : String) (a b : Stamp) : Bool := relCmp searchTerm a b ≤ 0

/-- handleSearch, restricted to the match list it computes: an empty
(all-whitespace) query clears the matches; a query whose parseInt value
lies in 1800..2030 filters by exact year; anything else filters by
matchesSearchTerm; the matches are then stable-sorted by the relevance
comparator. -/
def handleSearchMatches (stamps : List Stamp) (query : String) : List Stamp :=
  if trimL query.toList = [] then []
  else
    let searchTerm := lowerStr (trimStr query)
    let base :=
      match parseIntJS query with
      | some y =>
        if 1800 ≤ y ∧ y ≤ 2030 then stamps.filter (fun s => s.year == y)
        else stamps.filter (fun s => matchesSearchTerm s searchTerm)
      | none => stamps.filter (fun s => matchesSearchTerm s searchTerm)
    insSort (relLe searchTerm) base

theorem digit_not_ws (c : Char) (h : isDigitChar c = true) : isWsChar c = false := by
  simp only [isDigitChar, Bool.and_eq_true, decide_eq_true_eq] at h
  simp only [isWsChar, Bool.or_eq_false_iff, decide_eq_false_iff_not]
  omega

theorem takeWhile_all {α : Type} {p : α → Bool} :
    ∀ l : List α, (∀ c ∈ l, p c = true) → l.takeWhile p = l := by
  intro l
  induction l with
  | nil => intro _; rfl
  | cons a t ih =>
    intro h
    rw [List.takeWhile_cons, if_pos (h a (by simp))]
    rw [ih (fun c hc => h c (by simp [hc]))]

theorem trimL_eq_nil_iff (cs : List Char) :
    trimL cs = [] ↔ ∀ c ∈ cs, isWsChar c = true := by
  unfold trimL
  rw [List.reverse_eq_nil_iff, List.dropWhile_eq_nil_iff]
  constructor
  · intro h c hc
    have hsplit := List.takeWhile_append_dropWhile (p := isWsChar) (l := cs)
    rw [← hsplit] at hc
    rcases List.mem_append.mp hc with hc | hc
    · exact List.mem_takeWhile_imp hc
    · exact h c (List.mem_reverse.mpr hc)
  · intro h x hx
    exact h x ((List.dropWhile_sublist (p := isWsChar)).subset (List.mem_reverse.mp hx))

theorem all_ws_parse_none (q : String) (hws : ∀ c ∈ q.toList, isWsChar c = true) :
    parseIntJS q = none := by
  have hcs : q.toList.dropWhile isWsChar = [] := List.dropWhile_eq_nil_iff.mpr hws
  unfold parseIntJS
  rw [hcs]
  rfl

theorem trimL_ne_nil_of_parse (q : String) (y : Int) (h : parseIntJS q = some y) :
    trimL q.toList ≠ [] := by
  intro hnil
  rw [all_ws_parse_none q ((trimL_eq_nil_iff q.toList).mp hnil)] at h
  exact Option.noConfusion h

theorem parseIntJS_digits (ds : List Char) (hne : ds ≠ [])
    (hdig : ∀ c ∈ ds, isDigitChar c = true) :
    parseIntJS (String.mk ds) = some (digitsVal ds) := by
  cases ds with
  | nil => exact absurd rfl hne
  | cons d t =>
    have hd : isDigitChar d = true := hdig d (by simp)
    have hws : isWsChar d = false := digit_not_ws d hd
    have hminus : ¬ d = '-' := by
      intro hh
      rw [hh] at hd
      exact absurd hd (by decide)
    have hplus : ¬ d = '+' := by
      intro hh
      rw [hh] at hd
      exact absurd hd (by decide)
    have h1 : (String.mk (d :: t)).toList = d :: t := rfl
    have hdrop : List.dropWhile isWsChar (d :: t) = d :: t := by
      rw [List.dropWhile_cons, if_neg (by simp [hws])]
    have hsign : parseIntSign (d :: t) = (1, d :: t) := by
      simp only [parseIntSign]
      rw [if_neg hminus, if_neg hplus]
    unfold parseIntJS
    rw [h1, hdrop, hsign]
    simp [takeWhile_all (d :: t) hdig]

/-- A year-1900 record whose text fields never contain the string 1900s. -/
def c7A : Stamp :=
  { id := "010", year := 1900, mainTopic := "Map", subTopic := "",
    denomination := "", color := "", notes := "", image := "a.jpg" }

/-- A year-1935 record whose notes contain the string 1900s. -/
def c7B : Stamp :=
  { id := "156", year := 1935, mainTopic := "Reissue", subTopic := "",
    denomination := "", color := "", notes := "from the 1900s", image := "b.jpg" }

/-- Claim C7 counterexample: the query 1900s is not pure numeric, yet
parseInt reads its leading digits as 1900, so handleSearch year-filters —
it returns exactly the year-1900 record, which is not a free-text match
for 1900s, and drops the record whose notes do contain 1900s.  A query
that is not pure numeric is therefore not matched as free text. -/
theorem year_filter_not_pure_numeric :
    handleSearchMatches [c7A, c7B] "1900s" = [c7A]
    ∧ matchesSearchTerm c7B (lowerStr (trimStr "1900s")) = true
    ∧ matchesSearchTerm c7A (lowerStr (trimStr "1900s")) = false := by
  decide

/-- Claim C7 (amended): a query whose parseInt value (optional sign and
leading decimal digits after whitespace) lies in 1800..2030 is treated as
an exact year filter — the match list is exactly the records with that
year; this covers every pure numeric query in range (third conjunct), but
also mixed queries such as 1900s.  Only a non-blank query whose parseInt
is NaN or out of range is matched as free text. -/
theorem handleSearch_year_detection (stamps : List Stamp) (q : String) :
    (∀ y : Int, parseIntJS q = some y → 1800 ≤ y → y ≤ 2030 →
      (handleSearchMatches stamps q).Perm (stamps.filter (fun s => s.year == y)))
    ∧ (trimL q.toList ≠ [] → (∀ y : Int, parseIntJS q = some y → y < 1800 ∨ 2030 < y) →
      (handleSearchMatches stamps q).Perm
        (stamps.filter (fun s => matchesSearchTerm s (lowerStr (trimStr q)))))
    ∧ (∀ ds : List Char, ds ≠ [] → (∀ c ∈ ds, isDigitChar c = true) →
      parseIntJS (String.mk ds) = some (digitsVal ds)) := by
  refine ⟨?_, ?_, parseIntJS_digits⟩
  · intro y hy h1 h2
    unfold handleSearchMatches
    rw [if_neg (trimL_ne_nil_of_parse q y hy), hy]
    show (insSort (relLe (lowerStr (trimStr q)))
        (if 1800 ≤ y ∧ y ≤ 2030 then stamps.filter (fun s => s.year == y)
         else stamps.filter (fun s => matchesSearchTerm s (lowerStr (trimStr q))))).Perm
      (stamps.filter (fun s => s.year == y))
    rw [if_pos ⟨h1, h2⟩]
    exact perm_insSort _ _
  · intro hne hrange
    unfold handleSearchMatches
    rw [if_neg hne]
    cases hp : parseIntJS q with
    | none => exact perm_insSort _ _
    | some y =>
      show (insSort (relLe (lowerStr (trimStr q)))
          (if 1800 ≤ y ∧ y ≤ 2030 then stamps.filter (fun s => s.year == y)
           else stamps.filter (fun s => matchesSearchTerm s (lowerStr (trimStr q))))).Perm
        (stamps.filter (fun s => matchesSearchTerm s (lowerStr (trimStr q))))
      rw [if_neg ?_]
      · exact perm_insSort _ _
      · rcases hrange y hp with h | h <;> omega

/-- Claim C7 witness: the pure numeric query 1935 on the sample catalog
year-filters to the 1935 record. -/
theorem handleSearch_year_detection_witness :
    (handleSearchMatches [demoA, demoB, demoC] "1935").Perm
      ([demoA, demoB, demoC].filter (fun s => s.year == 1935)) :=
  (handleSearch_year_detection [demoA, demoB, demoC] "1935").1 1935
    (by decide) (by decide) (by decide)

theorem listBegins_self : ∀ l : List Char, listBegins l l = true := by
  intro l
  induction l with
  | nil => rfl
  | cons c t ih => simp [listBegins, ih]

theorem containsSub_self (s : String) : containsSub s s = true := by
  unfold containsSub containsSubL
  cases h : s.toList with
  | nil => rfl
  | cons c t =>
    rw [← h]
    have := listBegins_self s.toList
    cases s.toList with
    | nil => rfl
    | cons d u => simp [containsSubL, listBegins_self]

theorem relLe_iff (t : String) (a b : Stamp) :
    relLe t a b = true ↔
      (calculateRelevanceScore b t < calculateRelevanceScore a t
       ∨ (calculateRelevanceScore a t = calculateRelevanceScore b t ∧ a.year ≤ b.year)) := by
  unfold relLe relCmp
  by_cases h : calculateRelevanceScore a t = calculateRelevanceScore b t
  · rw [if_neg (by simp [h])]
    simp only [decide_eq_true_eq]
    omega
  · rw [if_pos h]
    simp only [decide_eq_true_eq]
    have hne : (calculateRelevanceScore a t : Int) ≠ (calculateRelevanceScore b t : Int) := by
      exact_mod_cast h
    omega

theorem relLe_total (t : String) (a b : Stamp) :
    relLe t a b = true ∨ relLe t b a = true := by
  rw [relLe_iff, relLe_iff]
  omega

theorem relLe_trans (t : String) (a b c : Stamp)
    (hab : relLe t a b = true) (hbc : relLe t b c = true) : relLe t a c = true := by
  rw [relLe_iff] at hab hbc ⊢
  omega

/-- The match list handleSearch builds is sorted under the relevance
comparator, whatever branch produced it. -/
theorem handleSearch_sorted (stamps : List Stamp) (q : String) :
    (handleSearchMatches stamps q).Pairwise
      (fun a b => relLe (lowerStr (trimStr q)) a b = true) := by
  unfold handleSearchMatches
  by_cases hg : trimL q.toList = []
  · rw [if_pos hg]
    exact List.Pairwise.nil
  · rw [if_neg hg]
    show (insSort (relLe (lowerStr (trimStr q))) _).Pairwise _
    apply pairwise_insSort
    · intro x _ y _
      exact relLe_total _ x y
    · intro x _ y _ z _
      exact relLe_trans _ x y z

/-- In a relevance-sorted list, a strictly higher-scoring record comes
strictly earlier (first occurrences compared). -/
theorem pairwise_rel_index (t : String) (l : List Stamp)
    (hp : l.Pairwise (fun a b => relLe t a b = true))
    (A B : Stamp) (hA : A ∈ l) (hB : B ∈ l)
    (hlt : calculateRelevanceScore B t < calculateRelevanceScore A t) :
    l.indexOf A < l.indexOf B := by
  have hne : A ≠ B := by
    intro hh
    rw [hh] at hlt
    omega
  have hiA := List.indexOf_lt_length.mpr hA
  have hiB := List.indexOf_lt_length.mpr hB
  by_contra hcon
  push_neg at hcon
  have hneidx : l.indexOf B ≠ l.indexOf A := fun hh =>
    hne ((List.indexOf_inj hB hA).mp hh).symm
  have hlt2 : l.indexOf B < l.indexOf A := by omega
  have hrel := List.pairwise_iff_getElem.mp hp (l.indexOf B) (l.indexOf A) hiB hiA hlt2
  rw [List.getElem_indexOf hiB, List.getElem_indexOf hiA] at hrel
  rw [relLe_iff] at hrel
  omega

theorem score_single_word (s : Stamp) (t w : String) (ht : splitWs t = [w]) :
    calculateRelevanceScore s t = fieldScore s w := by
  unfold calculateRelevanceScore
  rw [ht]
  simp

/-- The query word occurs in none of the non-mainTopic fields of the
record (subTopic, color, denomination, notes, id, year string). -/
def othersFree (s : Stamp) (w : String) : Bool :=
  !(containsSub (lowerStr s.subTopic) w) && !(containsSub (lowerStr s.color) w)
  && !(containsSub (lowerStr s.denomination) w) && !(containsSub (lowerStr s.notes) w)
  && !(containsSub (lowerStr s.id) w) && !(containsSub (toString s.year) w)

theorem fieldScore_exact (s : Stamp) (w : String)
    (hex : lowerStr s.mainTopic = w) (ho : othersFree s w = true) :
    fieldScore s w = 100 := by
  simp only [othersFree, Bool.and_eq_true, Bool.not_eq_true'] at ho
  obtain ⟨⟨⟨⟨⟨h1, h2⟩, h3⟩, h4⟩, h5⟩, h6⟩ := ho
  unfold fieldScore
  rw [hex]
  simp [containsSub_self, h1, h2, h3, h4, h5, h6]

theorem fieldScore_sub (s : Stamp) (w : String)
    (hsub : containsSub (lowerStr s.mainTopic) w = true)
    (hne : lowerStr s.mainTopic ≠ w) (ho : othersFree s w = true) :
    fieldScore s w = 50 := by
  simp only [othersFree, Bool.and_eq_true, Bool.not_eq_true'] at ho
  obtain ⟨⟨⟨⟨⟨h1, h2⟩, h3⟩, h4⟩, h5⟩, h6⟩ := ho
  unfold fieldScore
  simp [hsub, hne, h1, h2, h3, h4, h5, h6]

/-- Claim C8 counterexample record A: exact mainTopic match for red. -/
def c8A : Stamp :=
  { id := "200", year := 1901, mainTopic := "red", subTopic := "",
    denomination := "", color := "", notes := "", image := "a.jpg" }

/-- Claim C8 counterexample record B: the term red occurs in its mainTopic
only as a proper substring, but also in its subTopic and color fields. -/
def c8B : Stamp :=
  { id := "300", year := 1902, mainTopic := "wilfred", subTopic := "red",
    denomination := "", color := "red", notes := "", image := "b.jpg" }

/-- Claim C8 counterexample: for the term red, record A matches the
mainTopic exactly (score 100) while B contains it only as a proper
substring of wilfred, yet B's subTopic and color hits (50 + 80 + 30 = 160)
outscore A, and handleSearch orders B before A — refuting both the
strictly-higher-score claim and the ordering claim as universally
stated. -/
theorem exact_topic_not_always_first :
    lowerStr c8A.mainTopic = "red"
    ∧ containsSub (lowerStr c8B.mainTopic) "red" = true
    ∧ lowerStr c8B.mainTopic ≠ "red"
    ∧ calculateRelevanceScore c8A "red" < calculateRelevanceScore c8B "red"
    ∧ handleSearchMatches [c8A, c8B] "red" = [c8B, c8A] := by
  decide

/-- Claim C8 (amended): for a single-word query term occurring in no field
other than mainTopic of either record, an exact mainTopic match scores
strictly higher (100 versus 50) than a proper-substring match and comes
strictly earlier in the match list; and whenever two entries of the match
list have equal scores, they appear in year-ascending (chronological)
order.  Without the other-fields restriction the subTopic, color,
denomination, notes, id and year bonuses can push a substring match above
an exact one (see the counterexample). -/
theorem exact_topic_outranks_substring (stamps : List Stamp) (q w : String) (A B : Stamp)
    (hterm : splitWs (lowerStr (trimStr q)) = [w])
    (hAexact : lowerStr A.mainTopic = w)
    (hBsub : containsSub (lowerStr B.mainTopic) w = true)
    (hBne : lowerStr B.mainTopic ≠ w)
    (hAo : othersFree A w = true) (hBo : othersFree B w = true) :
    calculateRelevanceScore B (lowerStr (trimStr q)) <
      calculateRelevanceScore A (lowerStr (trimStr q))
    ∧ (A ∈ handleSearchMatches stamps q → B ∈ handleSearchMatches stamps q →
        (handleSearchMatches stamps q).indexOf A < (handleSearchMatches stamps q).indexOf B)
    ∧ (∀ (i j : Nat) (hi : i < (handleSearchMatches stamps q).length)
         (hj : j < (handleSearchMatches stamps q).length), i < j →
        calculateRelevanceScore ((handleSearchMatches stamps q).get ⟨i, hi⟩)
            (lowerStr (trimStr q))
          = calculateRelevanceScore ((handleSearchMatches stamps q).get ⟨j, hj⟩)
            (lowerStr (trimStr q)) →
        ((handleSearchMatches stamps q).get ⟨i, hi⟩).year
          ≤ ((handleSearchMatches stamps q).get ⟨j, hj⟩).year) := by
  have hsA : calculateRelevanceScore A (lowerStr (trimStr q)) = 100 := by
    rw [score_single_word A _ w hterm]
    exact fieldScore_exact A w hAexact hAo
  have hsB : calculateRelevanceScore B (lowerStr (trimStr q)) = 50 := by
    rw [score_single_word B _ w hterm]
    exact fieldScore_sub B w hBsub hBne hBo
  refine ⟨by omega, ?_, ?_⟩
  · intro hA hB
    exact pairwise_rel_index _ _ (handleSearch_sorted stamps q) A B hA hB (by omega)
  · intro i j hi hj hij heq
    have hrel := List.pairwise_iff_getElem.mp (handleSearch_sorted stamps q) i j hi hj hij
    rw [relLe_iff] at hrel
    simp only [List.get_eq_getElem] at heq ⊢
    omega

/-- Claim C8 witness record: proper-substring mainTopic match with the
term in no other field. -/
def c8C : Stamp :=
  { id := "300", year := 1902, mainTopic := "wilfred", subTopic := "",
    denomination := "", color := "", notes := "", image := "b.jpg" }

/-- Claim C8 witness: with the term red confined to mainTopic, the exact
match c8A outscores the substring match c8C and is listed first. -/
theorem exact_topic_outranks_substring_witness :
    calculateRelevanceScore c8C (lowerStr (trimStr "red")) <
      calculateRelevanceScore c8A (lowerStr (trimStr "red"))
    ∧ (handleSearchMatches [c8A, c8C] "red").indexOf c8A
        < (handleSearchMatches [c8A, c8C] "red").indexOf c8C :=
  ⟨(exact_topic_outranks_substring [c8A, c8C] "red" "red" c8A c8C (by decide) (by decide)
      (by decide) (by decide) (by decide) (by decide)).1,
   (exact_topic_outranks_substring [c8A, c8C] "red" "red" c8A c8C (by decide) (by decide)
      (by decide) (by decide) (by decide) (by decide)).2.1 (by decide) (by decide)⟩

/-! ### Search navigation state (nextMatch / previousMatch, app.js
lines 1198-1214) -/

/-- The search navigation state: the current match list and index. -/
structure SearchNav where
  currentMatches : List Stamp
  currentMatchIndex : Nat
deriving DecidableEq

/-- nextMatch: no-op on an empty match list, else advance the index
cyclically. -/
def nextMatch (s : SearchNav) : SearchNav :=
  if s.currentMatches.length = 0 then s
  else { s with currentMatchIndex := (s.currentMatchIndex + 1) % s.currentMatches.length }

/-- previousMatch: no-op on an empty match list, else step the index back
cyclically.  The source computes (i - 1 + n) % n over JS numbers; for
i ≥ 0 that equals (i + n - 1) % n over Nat. -/
def previousMatch (s : SearchNav) : SearchNav :=
  if s.currentMatches.length = 0 then s
  else { s with currentMatchIndex :=
          (s.currentMatchIndex + s.currentMatches.length - 1) % s.currentMatches.length }

/-- Claim C9: on a non-empty match list nextMatch sets the index to
(i + 1) mod n and previousMatch to (i - 1 + n) mod n, both indices stay
valid (below n) and the match list itself is untouched; on an empty list
both operations leave the whole state unchanged; and on a 3-match list
three nextMatch calls from index 0 return to index 0. -/
theorem match_cycling (s : SearchNav) :
    (0 < s.currentMatches.length →
      (nextMatch s).currentMatchIndex
          = (s.currentMatchIndex + 1) % s.currentMatches.length
      ∧ (previousMatch s).currentMatchIndex
          = (s.currentMatchIndex + s.currentMatches.length - 1) % s.currentMatches.length
      ∧ (nextMatch s).currentMatchIndex < s.currentMatches.length
      ∧ (previousMatch s).currentMatchIndex < s.currentMatches.length
      ∧ (nextMatch s).currentMatches = s.currentMatches
      ∧ (previousMatch s).currentMatches = s.currentMatches)
    ∧ (s.currentMatches.length = 0 → nextMatch s = s ∧ previousMatch s = s)
    ∧ (s.currentMatches.length = 3 → s.currentMatchIndex = 0 →
      (nextMatch (nextMatch (nextMatch s))).currentMatchIndex = 0) := by
  refine ⟨?_, ?_, ?_⟩
  · intro hn
    unfold nextMatch previousMatch
    rw [if_neg (by omega), if_neg (by omega)]
    refine ⟨rfl, rfl, ?_, ?_, rfl, rfl⟩
    · exact Nat.mod_lt _ hn
    · exact Nat.mod_lt _ hn
  · intro h0
    unfold nextMatch previousMatch
    rw [if_pos h0, if_pos h0]
    exact ⟨rfl, rfl⟩
  · intro h3 h0
    have step : ∀ t : SearchNav, t.currentMatches.length = 3 →
        (nextMatch t).currentMatches.length = 3 ∧
        (nextMatch t).currentMatchIndex = (t.currentMatchIndex + 1) % 3 := by
      intro t ht
      unfold nextMatch
      rw [if_neg (by omega)]
      constructor
      · simpa using ht
      · simp [ht]
    obtain ⟨l1, i1⟩ := step s h3
    obtain ⟨l2, i2⟩ := step _ l1
    obtain ⟨l3, i3⟩ := step _ l2
    rw [i3, i2, i1, h0]

/-- Concrete three-match search state. -/
def c9S : SearchNav := { currentMatches := [demoA, demoB, demoC], currentMatchIndex := 0 }

/-- Claim C9 witness at the concrete three-match state. -/
theorem match_cycling_witness :
    (nextMatch c9S).currentMatchIndex
        = (c9S.currentMatchIndex + 1) % c9S.currentMatches.length
    ∧ (nextMatch (nextMatch (nextMatch c9S))).currentMatchIndex = 0 :=
  ⟨((match_cycling c9S).1 (by decide)).1,
   (match_cycling c9S).2.2 (by decide) (by decide)⟩

/-! ### jumpToStamp (app.js lines 1250-1277) -/

/-- The pan/zoom transform state. -/
structure ViewState where
  scale : ℚ
  translateX : ℚ
  translateY : ℚ
deriving DecidableEq

/-- Math.max over the rationals. -/
def qMax (x y : ℚ) : ℚ := if x ≤ y then y else x

/-- jumpToStamp: querySelector for the stamp's data-id; when no rendered
node matches, return immediately with the transform untouched; otherwise
force scale to at least 1 and recompute the translation that centers the
stamp's rect inside the container. -/
def jumpToStamp (dom : String → Option Rect) (gridRect : Rect)
    (containerWidth containerHeight : ℚ) (st : ViewState) (stamp : Stamp) : ViewState :=
  match dom stamp.id with
  | none => st
  | some stampRect =>
    let scale := qMax 1 st.scale
    let stampX := stampRect.left - gridRect.left
    let stampY := stampRect.top - gridRect.top
    { scale := scale,
      translateX := containerWidth / 2 - (stampX * scale + stampRect.width * scale / 2),
      translateY := containerHeight / 2 - (stampY * scale + stampRect.height * scale / 2) }

/-- Claim C10: when the stamp's DOM node does not exist (the renderer has
not reached the record, or the id matches nothing), jumpToStamp returns
immediately and the transform — scale, translateX, translateY — is left
entirely unchanged. -/
theorem jumpToStamp_missing_noop (dom : String → Option Rect) (gridRect : Rect)
    (containerWidth containerHeight : ℚ) (st : ViewState) (stamp : Stamp)
    (h : dom stamp.id = none) :
    jumpToStamp dom gridRect containerWidth containerHeight st stamp = st := by
  unfold jumpToStamp
  rw [h]

/-- A concrete grid rect for the Claim C10 witness. -/
def c10Grid : Rect :=
  { left := 0, top := 0, right := 0, bottom := 0, width := 0, height := 0 }

/-- The initial transform (scale 0.3, no translation). -/
def c10View : ViewState := { scale := 3 / 10, translateX := 0, translateY := 0 }

/-- Claim C10 witness: an empty DOM leaves the transform unchanged. -/
theorem jumpToStamp_missing_noop_witness :
    jumpToStamp (fun _ => none) c10Grid 1200 800 c10View demoC = c10View :=
  jumpToStamp_missing_noop (fun _ => none) c10Grid 1200 800 c10View demoC rfl
